import Mathlib

/-!
Shallow embedding of `src/TradeAllocationSimulation.py` (class
`TradeAllocationSimulation`): trade loading, per-minute bucketing, optional
urgency buffering, strategy ordering, greedy per-category allocation under a
global per-minute cap, and the unallocated-trade summary.

Timestamps are modelled as integer seconds; `pandas` minute flooring
(`dt.floor` with a one-minute frequency) becomes floor division by 60, and a
`timedelta` of `m` minutes becomes `60 * m` seconds.  A dataframe row becomes
the structure `Row`; the derived `ProductCategory` column is an
`Option ProductCategory` (Python `NaN` for unrecognized interval lengths is
`none`), and the `Minute` column attached by `simulate_allocation` is an
`Option Int` that is `none` until that column is assigned.
-/

/-- The three recognized product categories (values of the
`ProductCategory` column). -/
inductive ProductCategory : Type
  | QuarterHourly
  | HalfHourly
  | Hourly
  deriving DecidableEq, Repr

/-- A raw input record, before `_load_data` derives the category column:
submission timestamp (`TransactionTime_parsed`, seconds), delivery-window
start (`ProductFromUTC`, seconds), interval length in minutes
(`ProductTimeDiffMinutes`), and volume (`QuantityMWh`). -/
structure RawTrade : Type where
  transactionTime : Int
  productFromUTC : Int
  productTimeDiffMinutes : Int
  quantityMWh : Int
  deriving DecidableEq, Repr

/-- A loaded dataframe row: the raw fields plus the derived
`ProductCategory` column and the `Minute` column (absent, i.e. `none`,
until `simulate_allocation` assigns it). -/
structure Row : Type where
  transactionTime : Int
  productFromUTC : Int
  productTimeDiffMinutes : Int
  quantityMWh : Int
  productCategory : Option ProductCategory
  minute : Option Int
  deriving DecidableEq, Repr

/-- Line 37-39: `data['ProductTimeDiffMinutes'].map({15: 'QuarterHourly', 30:
'HalfHourly', 60: 'Hourly'})`; any other value maps to `NaN`, modelled
as `none`. -/
def categoryOfDiff (d : Int) : Option ProductCategory :=
  if d = 15 then some ProductCategory.QuarterHourly
  else if d = 30 then some ProductCategory.HalfHourly
  else if d = 60 then some ProductCategory.Hourly
  else none

/-- One row of `_load_data`: parse timestamps (already numeric here) and
derive the category column; the `Minute` column does not exist yet. -/
def loadRow (t : RawTrade) : Row :=
  ⟨t.transactionTime, t.productFromUTC, t.productTimeDiffMinutes,
    t.quantityMWh, categoryOfDiff t.productTimeDiffMinutes, none⟩

/-- `_load_data` (lines 30-40): load every record and derive the category
column. -/
def load_data (ts : List RawTrade) : List Row := ts.map loadRow

/-- The simulation object: constructor fields of
`TradeAllocationSimulation.__init__` that the algorithm reads.
`buffer_threshold` is stored in seconds (the Python code stores a
`timedelta`).  The per-category limits and the per-minute message cap are the
constants `trade_limits` and `max_messages_per_minute` below. -/
structure TradeAllocationSimulation : Type where
  strategy : String
  use_buffer : Bool
  buffer_threshold : Int
  data : List Row

/-- The constructor (lines 9-28): converts the threshold from minutes to a
`timedelta` (here: seconds) and loads the data. -/
def mkSimulation (strategy : String) (use_buffer : Bool)
    (buffer_threshold_minutes : Int) (raw : List RawTrade) :
    TradeAllocationSimulation :=
  ⟨strategy, use_buffer, 60 * buffer_threshold_minutes, load_data raw⟩

/-- Lines 22-26: `self.trade_limits`, an insertion-ordered dict, iterated in
declaration order Hourly, HalfHourly, QuarterHourly. -/
def trade_limits : List (ProductCategory × Nat) :=
  [(ProductCategory.Hourly, 48), (ProductCategory.HalfHourly, 96),
    (ProductCategory.QuarterHourly, 192)]

/-- Line 27: `self.max_messages_per_minute = 60`. -/
def max_messages_per_minute : Nat := 60

/-- Minute flooring of a timestamp in seconds (line 52,
`dt.floor` to the minute): floor division by 60 gives the minute index. -/
def minuteOf (t : Int) : Int := Int.fdiv t 60

/-- Line 52: `self.data['Minute'] = self.data['TransactionTime_parsed']
.dt.floor('T')` applied to one row: the `Minute` column is assigned. -/
def stampMinute (r : Row) : Row :=
  { r with minute := some (minuteOf r.transactionTime) }

/-- The predicate of line 72: this row's `ProductCategory` equals the given
category (a `NaN` label, `none`, matches no category). -/
def catIs (c : ProductCategory) (t : Row) : Bool :=
  decide (t.productCategory = some c)

/-- Line 61: `Urgency = (ProductFromUTC - TransactionTime_parsed).abs()`,
in seconds. -/
def urgency (r : Row) : Int := ((r.productFromUTC - r.transactionTime).natAbs : Int)

/-- Generic insertion step of a stable sort with respect to the boolean
comparator `le`, where `le x y = true` means `x` may be placed before `y`:
`x` is inserted in front of the first element it may precede. -/
def insertOrd {α : Type} (le : α → α → Bool) (x : α) : List α → List α
  | [] => [x]
  | y :: ys => if le x y then x :: y :: ys else y :: insertOrd le x ys

/-- Generic stable insertion sort with respect to `le`.  A stable sort's
output is uniquely determined by the comparator and the input order, so this
computes the same list as Python's stable `sorted`. -/
def sortOrd {α : Type} (le : α → α → Bool) : List α → List α
  | [] => []
  | x :: xs => insertOrd le x (sortOrd le xs)

/-- Line 68: `sorted(buffer, key=lambda x: -x['QuantityMWh'])` — a stable
sort in descending order of volume. -/
def sortByMW (buffer : List Row) : List Row :=
  sortOrd (fun a b => decide (b.quantityMWh ≤ a.quantityMWh)) buffer

/-- Lines 66-68: the strategy step; only `MaxMW` sorts, every other strategy
value leaves the buffer in arrival order. -/
def orderBuffer (strategy : String) (buffer : List Row) : List Row :=
  if strategy = "MaxMW" then sortByMW buffer else buffer

/-- Lines 59-64: the per-bucket working set.  With `use_buffer`, only trades
whose urgency is at most the threshold enter the buffer, otherwise the whole
group does.  (The transient `Urgency` column is a function of the other
fields of the row, so leaving it out of `Row` changes no comparison the
algorithm performs.) -/
def bufferOf (sim : TradeAllocationSimulation) (group : List Row) : List Row :=
  if sim.use_buffer then
    group.filter (fun r => decide (urgency r ≤ sim.buffer_threshold))
  else group

/-- Lines 71-85: the category flush loop over `trade_limits`.  For each
category: collect its subsequence of the buffer, allocate a prefix bounded
by the category limit and by `max(0, cap - message_count)` (Nat subtraction
is exactly that clamped difference), mark the rest unallocated, and remove
the allocated trades from the buffer by value equality
(`trade not in allocated`).  Returns the concatenated allocated and
unallocated lists of the bucket. -/
def flushCats : List (ProductCategory × Nat) → List Row → Nat → List Row × List Row
  | [], _, _ => ([], [])
  | (c, limit) :: rest, buffer, message_count =>
    let product_group := buffer.filter (catIs c)
    let remaining_limit := max_messages_per_minute - message_count
    let allocated := product_group.take (min limit remaining_limit)
    let unallocated := product_group.drop allocated.length
    let buffer2 := buffer.filter (fun t => decide (t ∉ allocated))
    let tail_result := flushCats rest buffer2 (message_count + allocated.length)
    (allocated ++ tail_result.1, unallocated ++ tail_result.2)

/-- Lines 55-85: processing of one minute bucket: buffering filter, strategy
ordering, then the category flush loop starting from message count 0. -/
def processBucket (sim : TradeAllocationSimulation) (group : List Row) :
    List Row × List Row :=
  flushCats trade_limits (orderBuffer sim.strategy (bufferOf sim group)) 0

/-- `self.data` after line 52: every row has its `Minute` column assigned. -/
def stampedData (sim : TradeAllocationSimulation) : List Row :=
  sim.data.map stampMinute

/-- Ascending insertion sort on integers, used for the sorted group keys of
`groupby`. -/
def sortAscInt (l : List Int) : List Int :=
  sortOrd (fun a b => decide (a ≤ b)) l

/-- Line 53: the group keys of `groupby('Minute')` — the distinct values of
the `Minute` column, in ascending order (pandas sorts group keys). -/
def minuteKeys (rows : List Row) : List Int :=
  sortAscInt (rows.filterMap (fun r => r.minute)).dedup

/-- The rows of one `groupby('Minute')` group, in original row order. -/
def bucketRows (rows : List Row) (k : Int) : List Row :=
  rows.filter (fun r => decide (r.minute = some k))

/-- Lines 48-85: the whole loop of `simulate_allocation`: buckets are
visited in ascending key order and each bucket's allocated and unallocated
lists are appended to the running totals. -/
def allocationLists (sim : TradeAllocationSimulation) : List Row × List Row :=
  (minuteKeys (stampedData sim)).foldl
    (fun acc k =>
      let pb := processBucket sim (bucketRows (stampedData sim) k)
      (acc.1 ++ pb.1, acc.2 ++ pb.2))
    ([], [])

/-- The local `allocated_trades` list at the end of `simulate_allocation`;
it is built but not returned. -/
def allocated_trades (sim : TradeAllocationSimulation) : List Row :=
  (allocationLists sim).1

/-- The local `unallocated_trades` list at the end of
`simulate_allocation`. -/
def unallocated_trades (sim : TradeAllocationSimulation) : List Row :=
  (allocationLists sim).2

/-- Line 88: the return value of `simulate_allocation` is
`pd.DataFrame(unallocated_trades)` — the unallocated rows only. -/
def simulate_allocation (sim : TradeAllocationSimulation) : List Row :=
  unallocated_trades sim

/-- `self.data` after a call to `simulate_allocation`: the method assigned
the `Minute` column at line 52 (the `Urgency` column of line 61 is attached
to per-group copies, not to `self.data`). -/
def dataAfterSimulate (sim : TradeAllocationSimulation) : List Row :=
  stampedData sim

/-- A row with its `Minute` column removed; used to state which columns
`simulate_allocation` leaves unchanged. -/
def stripMinute (r : Row) : Row := { r with minute := none }

/-- The summary group keys in the order pandas sorts them
(alphabetically: HalfHourly, Hourly, QuarterHourly). -/
def summaryCats : List ProductCategory :=
  [ProductCategory.HalfHourly, ProductCategory.Hourly,
    ProductCategory.QuarterHourly]

/-- `get_summary` (lines 90-102).  `pd.DataFrame` of an empty record list
has no columns at all, so `groupby('ProductCategory')` on it raises
`KeyError`; that failure is modelled as `Except.error`.  On a non-empty
unallocated list the summary maps each category present to its total volume
and trade count. -/
def get_summary (sim : TradeAllocationSimulation) :
    Except String (List (ProductCategory × Int × Nat)) :=
  let unallocated_df := simulate_allocation sim
  if unallocated_df.isEmpty then Except.error "KeyError: ProductCategory"
  else Except.ok
    ((summaryCats.filter (fun c => unallocated_df.any (catIs c))).map
      (fun c =>
        (c, ((unallocated_df.filter (catIs c)).map Row.quantityMWh).sum,
          (unallocated_df.filter (catIs c)).length)))

/-- Count of the rows of one category in a list. -/
def countCat (rows : List Row) (c : ProductCategory) : Nat :=
  (rows.filter (catIs c)).length

/-- The spec's per-bucket description of the unallocated output (spec §4.1
step 4 and the claim on output order): for each category, in the fixed
`trade_limits` order, the unallocated trades are the working set's category
subsequence with its allocated prefix removed, where the prefix length is
`min(category quota, remaining global cap)` clamped by availability — all
computed directly from the bucket's ordered working set `ws`. -/
def specCatsUnalloc : List (ProductCategory × Nat) → List Row → Nat → List Row
  | [], _, _ => []
  | (c, limit) :: rest, ws, m =>
    let g := ws.filter (catIs c)
    let a := min (min limit (max_messages_per_minute - m)) g.length
    g.drop a ++ specCatsUnalloc rest ws (m + a)

/-- Concrete input for the category-priority example: one bucket holding 50
Hourly trades and 50 QuarterHourly trades, buffering disabled. -/
def simC1 : TradeAllocationSimulation :=
  mkSimulation "FirstArrive" false 60
    (List.replicate 50 ⟨0, 3600, 60, 1⟩ ++ List.replicate 50 ⟨0, 900, 15, 1⟩)

/-- Concrete empty-dataset simulation. -/
def simC2 : TradeAllocationSimulation := mkSimulation "FirstArrive" false 60 []

/-- Concrete one-trade simulation (the trade is allocated, so the
unallocated output is empty). -/
def simC3 : TradeAllocationSimulation :=
  mkSimulation "FirstArrive" false 60 [⟨0, 3600, 60, 1⟩]

/-- Concrete empty simulation used to compare return values. -/
def simC3empty : TradeAllocationSimulation :=
  mkSimulation "FirstArrive" false 60 []

/-- Concrete bucket used as witness input for the partition and quota
theorems: three recognized trades of distinct categories. -/
def gC45 : List Row :=
  [⟨0, 3600, 60, 5, some ProductCategory.Hourly, some 0⟩,
    ⟨0, 900, 15, 7, some ProductCategory.QuarterHourly, some 0⟩,
    ⟨30, 1800, 30, 9, some ProductCategory.HalfHourly, some 0⟩]

/-- Concrete simulation configuration with buffering disabled, used with
`gC45`. -/
def simC45 : TradeAllocationSimulation :=
  mkSimulation "FirstArrive" false 60 []

/-- A trade whose urgency is 61 minutes (3660 seconds). -/
def rawC6a : RawTrade := ⟨0, 3660, 60, 1⟩

/-- A trade whose urgency is exactly 60 minutes. -/
def rawC6b : RawTrade := ⟨0, 3600, 60, 2⟩

/-- Concrete buffered simulation with threshold 60 minutes over the two
trades above. -/
def simC6 : TradeAllocationSimulation := mkSimulation "MaxMW" true 60 [rawC6a, rawC6b]

/-- A raw trade with unrecognized interval length 45. -/
def rawC7 : RawTrade := ⟨0, 2700, 45, 3⟩

/-- Concrete simulation containing only the unrecognized trade. -/
def simC7 : TradeAllocationSimulation := mkSimulation "FirstArrive" false 60 [rawC7]

/-- QuarterHourly trade of volume 5. -/
def rawQ5 : RawTrade := ⟨0, 900, 15, 5⟩

/-- QuarterHourly trade of volume 50. -/
def rawQ50 : RawTrade := ⟨0, 900, 15, 50⟩

/-- QuarterHourly trade of volume 20. -/
def rawQ20 : RawTrade := ⟨0, 900, 15, 20⟩

/-- Concrete `MaxMW` simulation in which 58 slots of the global cap are
taken by Hourly and HalfHourly trades, so the QuarterHourly trades of
volumes [5, 50, 20] face an effective quota of 2. -/
def simC8 : TradeAllocationSimulation :=
  mkSimulation "MaxMW" false 60
    (List.replicate 48 ⟨0, 3600, 60, 100⟩ ++ List.replicate 10 ⟨0, 1800, 30, 100⟩
      ++ [rawQ5, rawQ50, rawQ20])

/-- Concrete unordered row list used as witness input for the ordering
theorem. -/
def gC8w : List Row :=
  [⟨0, 900, 15, 5, some ProductCategory.QuarterHourly, some 0⟩,
    ⟨0, 900, 15, 50, some ProductCategory.QuarterHourly, some 0⟩,
    ⟨0, 900, 15, 50, some ProductCategory.QuarterHourly, some 1⟩]

/-- Concrete one-trade simulation used to exhibit the `Minute` column
mutation of the stored data. -/
def simC9 : TradeAllocationSimulation :=
  mkSimulation "FirstArrive" false 60 [⟨90, 3600, 60, 1⟩]

theorem insertOrd_perm {α : Type} (le : α → α → Bool) (x : α) :
    ∀ l : List α, (insertOrd le x l).Perm (x :: l) := by
  intro l
  induction l with
  | nil => exact List.Perm.refl _
  | cons y ys ih =>
    simp only [insertOrd]
    by_cases h : le x y = true
    · simp [if_pos h]
    · simp only [if_neg h]
      exact (ih.cons y).trans (List.Perm.swap x y ys)

theorem sortOrd_perm {α : Type} (le : α → α → Bool) :
    ∀ l : List α, (sortOrd le l).Perm l := by
  intro l
  induction l with
  | nil => exact List.Perm.refl _
  | cons x xs ih =>
    exact (insertOrd_perm le x (sortOrd le xs)).trans (ih.cons x)

theorem insertOrd_pairwise {α : Type} (le : α → α → Bool)
    (htot : ∀ a b, le a b = true ∨ le b a = true)
    (htrans : ∀ a b c, le a b = true → le b c = true → le a c = true)
    (x : α) :
    ∀ l : List α, l.Pairwise (fun a b => le a b = true) →
      (insertOrd le x l).Pairwise (fun a b => le a b = true) := by
  intro l
  induction l with
  | nil => intro _; simp [insertOrd]
  | cons y ys ih =>
    intro hp
    rw [List.pairwise_cons] at hp
    obtain ⟨hy, hys⟩ := hp
    simp only [insertOrd]
    by_cases h : le x y = true
    · simp only [if_pos h]
      rw [List.pairwise_cons]
      constructor
      · intro z hz
        rcases List.mem_cons.mp hz with rfl | hz
        · exact h
        · exact htrans x y z h (hy z hz)
      · exact List.pairwise_cons.mpr ⟨hy, hys⟩
    · simp only [if_neg h]
      rw [List.pairwise_cons]
      constructor
      · intro z hz
        have hz2 := (insertOrd_perm le x ys).mem_iff.mp hz
        rcases List.mem_cons.mp hz2 with rfl | hz3
        · rcases htot z y with hc | hc
          · exact absurd hc h
          · exact hc
        · exact hy z hz3
      · exact ih hys

theorem insertOrd_filter {α : Type} (le : α → α → Bool) (p : α → Bool) (x : α)
    (hp : ∀ y, p x = true → p y = true → le x y = true) :
    ∀ l : List α, (insertOrd le x l).filter p =
      if p x then x :: l.filter p else l.filter p := by
  intro l
  induction l with
  | nil =>
    simp only [insertOrd, List.filter]
    by_cases h : p x = true <;> simp [h]
  | cons y ys ih =>
    simp only [insertOrd]
    by_cases h : le x y = true
    · simp only [if_pos h, List.filter]
      by_cases hx : p x = true <;> by_cases hy : p y = true <;>
        simp [hx, hy, List.filter]
    · simp only [if_neg h, List.filter]
      by_cases hx : p x = true
      · have hy : p y = false := by
          by_cases hy : p y = true
          · exact absurd (hp y hx hy) h
          · exact Bool.eq_false_iff.mpr hy
        simp [hx, hy, ih]
      · have hx2 : p x = false := Bool.eq_false_iff.mpr hx
        by_cases hy : p y = true <;> simp [hx2, hy, ih]

theorem sortOrd_filter {α : Type} (le : α → α → Bool) (p : α → Bool)
    (hp : ∀ x y, p x = true → p y = true → le x y = true) :
    ∀ l : List α, (sortOrd le l).filter p = l.filter p := by
  intro l
  induction l with
  | nil => rfl
  | cons x xs ih =>
    simp only [sortOrd]
    rw [insertOrd_filter le p x (fun y => hp x y)]
    by_cases hx : p x = true
    · simp [hx, ih, List.filter]
    · have hx2 : p x = false := Bool.eq_false_iff.mpr hx
      simp [hx2, ih, List.filter]

theorem filter_of_disjoint_removed (buffer removed : List Row) (q : Row → Bool)
    (h : ∀ t ∈ buffer, q t = true → t ∉ removed) :
    (buffer.filter (fun t => decide (t ∉ removed))).filter q = buffer.filter q := by
  rw [List.filter_filter]
  apply List.filter_congr
  intro t ht
  by_cases hq : q t = true
  · simp [hq, h t ht hq]
  · simp [Bool.eq_false_iff.mpr hq]

theorem filter_or_perm (l : List Row) (p q : Row → Bool)
    (h : ∀ t ∈ l, ¬(p t = true ∧ q t = true)) :
    (l.filter p ++ l.filter q).Perm (l.filter (fun t => p t || q t)) := by
  induction l with
  | nil => simp
  | cons x xs ih =>
    have hx := h x (List.mem_cons_self x xs)
    have ih2 := ih (fun t ht => h t (List.mem_cons_of_mem x ht))
    by_cases hp : p x = true
    · have hq : q x = false := by
        rcases Bool.eq_false_or_eq_true (q x) with h1 | h1
        · exact absurd ⟨hp, h1⟩ hx
        · exact h1
      simp only [List.filter_cons, hp, hq, if_true, if_false, Bool.true_or,
        List.cons_append]
      exact ih2.cons x
    · have hp2 : p x = false := Bool.eq_false_iff.mpr hp
      by_cases hq : q x = true
      · simp only [List.filter_cons, hp2, hq, if_true, if_false, Bool.false_or]
        exact List.perm_middle.trans (ih2.cons x)
      · have hq2 : q x = false := Bool.eq_false_iff.mpr hq
        simp only [List.filter_cons, hp2, hq2, if_false, Bool.false_or]
        exact ih2

theorem take_append_drop_len (k : Nat) (l : List Row) :
    l.take k ++ l.drop (l.take k).length = l := by
  rw [List.length_take]
  rcases le_total k l.length with h | h
  · rw [min_eq_left h]
    exact List.take_append_drop k l
  · rw [min_eq_right h]
    rw [List.take_of_length_le h, List.drop_length, List.append_nil]

theorem perm_append_swap (a b c d : List Row) :
    ((a ++ b) ++ (c ++ d)).Perm ((a ++ c) ++ (b ++ d)) := by
  rw [List.perm_iff_count]
  intro x
  simp only [List.count_append]
  omega

theorem mem_take_filter_cat {c : ProductCategory} {buffer : List Row} {k : Nat}
    {x : Row} (hx : x ∈ (buffer.filter (catIs c)).take k) :
    x.productCategory = some c := by
  have hx2 : x ∈ buffer.filter (catIs c) := List.take_subset _ _ hx
  have h3 := List.of_mem_filter hx2
  simpa [catIs] using h3

theorem flushCats_mem :
    ∀ (cats : List (ProductCategory × Nat)) (buffer : List Row) (m : Nat) (x : Row),
      x ∈ (flushCats cats buffer m).1 ++ (flushCats cats buffer m).2 →
      x ∈ buffer ∧ ∃ p ∈ cats, x.productCategory = some p.1 := by
  intro cats
  induction cats with
  | nil =>
    intro buffer m x hx
    simp [flushCats] at hx
  | cons cl rest ih =>
    obtain ⟨c, limit⟩ := cl
    intro buffer m x hx
    simp only [flushCats, List.mem_append] at hx
    rcases hx with (hx | hx) | (hx | hx)
    · have hpg : x ∈ buffer.filter (catIs c) := List.take_subset _ _ hx
      refine ⟨(List.filter_sublist _).subset hpg, (c, limit),
        List.mem_cons_self _ _, ?_⟩
      have h3 := List.of_mem_filter hpg
      simpa [catIs] using h3
    · obtain ⟨hb, p, hp, hcat⟩ := ih _ _ x (List.mem_append.mpr (Or.inl hx))
      exact ⟨(List.filter_sublist _).subset hb, p, List.mem_cons_of_mem _ hp, hcat⟩
    · have hpg : x ∈ buffer.filter (catIs c) := List.drop_subset _ _ hx
      refine ⟨(List.filter_sublist _).subset hpg, (c, limit),
        List.mem_cons_self _ _, ?_⟩
      have h3 := List.of_mem_filter hpg
      simpa [catIs] using h3
    · obtain ⟨hb, p, hp, hcat⟩ := ih _ _ x (List.mem_append.mpr (Or.inr hx))
      exact ⟨(List.filter_sublist _).subset hb, p, List.mem_cons_of_mem _ hp, hcat⟩

theorem flushCats_perm :
    ∀ (cats : List (ProductCategory × Nat)) (buffer : List Row) (m : Nat),
      (cats.map Prod.fst).Nodup →
      ((flushCats cats buffer m).1 ++ (flushCats cats buffer m).2).Perm
        (buffer.filter (fun t => cats.any (fun p => catIs p.1 t))) := by
  intro cats
  induction cats with
  | nil =>
    intro buffer m _
    simp [flushCats]
  | cons cl rest ih =>
    obtain ⟨c, limit⟩ := cl
    intro buffer m hnd
    rw [List.map_cons, List.nodup_cons] at hnd
    obtain ⟨hc, hndrest⟩ := hnd
    simp only [flushCats]
    have hmemalloc : ∀ t ∈ (buffer.filter (catIs c)).take
        (min limit (max_messages_per_minute - m)), t.productCategory = some c :=
      fun t ht => mem_take_filter_cat ht
    have hrestcat : ∀ t : Row, (rest.any (fun p => catIs p.1 t)) = true →
        t.productCategory = some c → False := by
      intro t hany hcat
      obtain ⟨p, hp, hpt⟩ := List.any_eq_true.mp hany
      have : t.productCategory = some p.1 := by simpa [catIs] using hpt
      rw [hcat] at this
      have : c = p.1 := Option.some.inj this
      exact hc (this ▸ List.mem_map.mpr ⟨p, hp, rfl⟩)
    have hb2 : (buffer.filter (fun t => decide (t ∉ (buffer.filter (catIs c)).take
          (min limit (max_messages_per_minute - m))))).filter
            (fun t => rest.any (fun p => catIs p.1 t)) =
        buffer.filter (fun t => rest.any (fun p => catIs p.1 t)) := by
      apply filter_of_disjoint_removed
      intro t _ hq hmem
      exact hrestcat t hq (hmemalloc t hmem)
    have h2 := ih (buffer.filter (fun t => decide (t ∉ (buffer.filter (catIs c)).take
      (min limit (max_messages_per_minute - m)))))
      (m + ((buffer.filter (catIs c)).take
        (min limit (max_messages_per_minute - m))).length) hndrest
    rw [hb2] at h2
    have hdisj : ∀ t ∈ buffer,
        ¬(catIs c t = true ∧ (rest.any (fun p => catIs p.1 t)) = true) := by
      intro t _ hand
      have hcat : t.productCategory = some c := by simpa [catIs] using hand.1
      exact hrestcat t hand.2 hcat
    have h3 := filter_or_perm buffer (catIs c)
      (fun t => rest.any (fun p => catIs p.1 t)) hdisj
    refine (perm_append_swap _ _ _ _).trans ?_
    rw [take_append_drop_len]
    refine ((List.Perm.refl (buffer.filter (catIs c))).append h2).trans ?_
    refine h3.trans ?_
    apply List.Perm.of_eq
    apply List.filter_congr
    intro t _
    simp [List.any_cons]

theorem countCat_append (l1 l2 : List Row) (c : ProductCategory) :
    countCat (l1 ++ l2) c = countCat l1 c + countCat l2 c := by
  simp [countCat, List.filter_append]

theorem countCat_le_length (l : List Row) (c : ProductCategory) :
    countCat l c ≤ l.length :=
  List.length_filter_le _ _

theorem countCat_eq_zero {l : List Row} {c : ProductCategory}
    (h : ∀ t ∈ l, t.productCategory ≠ some c) : countCat l c = 0 := by
  have h2 : l.filter (catIs c) = [] := by
    rw [List.filter_eq_nil_iff]
    intro a ha
    simp [catIs, h a ha]
  simp [countCat, h2]

theorem flushCats_length :
    ∀ (cats : List (ProductCategory × Nat)) (buffer : List Row) (m : Nat),
      (flushCats cats buffer m).1.length ≤ max_messages_per_minute - m := by
  intro cats
  induction cats with
  | nil => intro buffer m; simp [flushCats]
  | cons cl rest ih =>
    obtain ⟨c, limit⟩ := cl
    intro buffer m
    simp only [flushCats, List.length_append]
    have h1 : ((buffer.filter (catIs c)).take
        (min limit (max_messages_per_minute - m))).length ≤
          min limit (max_messages_per_minute - m) := by
      rw [List.length_take]
      exact min_le_left _ _
    have h2 := ih (buffer.filter (fun t => decide (t ∉ (buffer.filter (catIs c)).take
        (min limit (max_messages_per_minute - m)))))
      (m + ((buffer.filter (catIs c)).take
        (min limit (max_messages_per_minute - m))).length)
    have h3 : min limit (max_messages_per_minute - m) ≤
        max_messages_per_minute - m := min_le_right _ _
    omega

theorem flushCats_countCat_zero :
    ∀ (cats : List (ProductCategory × Nat)) (buffer : List Row) (m : Nat)
      (c : ProductCategory), c ∉ cats.map Prod.fst →
      countCat (flushCats cats buffer m).1 c = 0 := by
  intro cats
  induction cats with
  | nil => intro buffer m c _; simp [flushCats, countCat]
  | cons cl rest ih =>
    obtain ⟨c0, l0⟩ := cl
    intro buffer m c hc
    rw [List.map_cons] at hc
    have hne : c ≠ c0 := fun h => hc (h ▸ List.mem_cons_self _ _)
    simp only [flushCats]
    rw [countCat_append]
    have h1 : countCat ((buffer.filter (catIs c0)).take
        (min l0 (max_messages_per_minute - m))) c = 0 := by
      apply countCat_eq_zero
      intro t ht
      rw [mem_take_filter_cat ht]
      intro h
      exact hne (Option.some.inj h).symm
    have h2 := ih (buffer.filter (fun t => decide (t ∉ (buffer.filter (catIs c0)).take
        (min l0 (max_messages_per_minute - m)))))
      (m + ((buffer.filter (catIs c0)).take
        (min l0 (max_messages_per_minute - m))).length)
      c (fun hmem => hc (List.mem_cons_of_mem _ hmem))
    omega

theorem flushCats_countCat_le :
    ∀ (cats : List (ProductCategory × Nat)) (buffer : List Row) (m : Nat),
      (cats.map Prod.fst).Nodup → ∀ c limit, (c, limit) ∈ cats →
      countCat (flushCats cats buffer m).1 c ≤ limit := by
  intro cats
  induction cats with
  | nil => intro _ _ _ c limit h; cases h
  | cons cl rest ih =>
    obtain ⟨c0, l0⟩ := cl
    intro buffer m hnd c limit hmem
    rw [List.map_cons, List.nodup_cons] at hnd
    obtain ⟨hc0, hndrest⟩ := hnd
    simp only [flushCats]
    rw [countCat_append]
    rcases List.mem_cons.mp hmem with heq | hmem2
    · obtain ⟨h1, h2⟩ := Prod.mk.inj (heq.symm)
      subst h1
      subst h2
      have hb1 : countCat ((buffer.filter (catIs c0)).take
          (min l0 (max_messages_per_minute - m))) c0 ≤
            min l0 (max_messages_per_minute - m) := by
        refine le_trans (countCat_le_length _ _) ?_
        rw [List.length_take]
        exact min_le_left _ _
      have hb2 := flushCats_countCat_zero rest
        (buffer.filter (fun t => decide (t ∉ (buffer.filter (catIs c0)).take
          (min l0 (max_messages_per_minute - m)))))
        (m + ((buffer.filter (catIs c0)).take
          (min l0 (max_messages_per_minute - m))).length)
        c0 hc0
      omega
    · have hcrest : c ∈ rest.map Prod.fst :=
        List.mem_map.mpr ⟨(c, limit), hmem2, rfl⟩
      have hne : c ≠ c0 := fun h => hc0 (h ▸ hcrest)
      have hb1 : countCat ((buffer.filter (catIs c0)).take
          (min l0 (max_messages_per_minute - m))) c = 0 := by
        apply countCat_eq_zero
        intro t ht
        rw [mem_take_filter_cat ht]
        intro h
        exact hne (Option.some.inj h).symm
      have hb2 := ih (buffer.filter (fun t => decide (t ∉ (buffer.filter (catIs c0)).take
          (min l0 (max_messages_per_minute - m)))))
        (m + ((buffer.filter (catIs c0)).take
          (min l0 (max_messages_per_minute - m))).length)
        hndrest c limit hmem2
      omega

theorem flushCats_head_countCat
    (c : ProductCategory) (limit : Nat) (rest : List (ProductCategory × Nat))
    (buffer : List Row) (m : Nat) (hc : c ∉ rest.map Prod.fst) :
    countCat (flushCats ((c, limit) :: rest) buffer m).1 c ≤
      min limit (max_messages_per_minute - m) := by
  simp only [flushCats]
  rw [countCat_append]
  have hb1 : countCat ((buffer.filter (catIs c)).take
      (min limit (max_messages_per_minute - m))) c ≤
        min limit (max_messages_per_minute - m) := by
    refine le_trans (countCat_le_length _ _) ?_
    rw [List.length_take]
    exact min_le_left _ _
  have hb2 := flushCats_countCat_zero rest
    (buffer.filter (fun t => decide (t ∉ (buffer.filter (catIs c)).take
      (min limit (max_messages_per_minute - m)))))
    (m + ((buffer.filter (catIs c)).take
      (min limit (max_messages_per_minute - m))).length)
    c hc
  omega

theorem specCatsUnalloc_congr :
    ∀ (cats : List (ProductCategory × Nat)) (ws ws2 : List Row) (m : Nat),
      (∀ p ∈ cats, ws2.filter (catIs p.1) = ws.filter (catIs p.1)) →
      specCatsUnalloc cats ws2 m = specCatsUnalloc cats ws m := by
  intro cats
  induction cats with
  | nil => intro _ _ _ _; rfl
  | cons cl rest ih =>
    obtain ⟨c, limit⟩ := cl
    intro ws ws2 m h
    simp only [specCatsUnalloc]
    rw [h (c, limit) (List.mem_cons_self _ _)]
    rw [ih ws ws2 (m + min (min limit (max_messages_per_minute - m))
      (ws.filter (catIs c)).length) (fun p hp => h p (List.mem_cons_of_mem _ hp))]

theorem flushCats_snd_spec :
    ∀ (cats : List (ProductCategory × Nat)) (buffer : List Row) (m : Nat),
      (cats.map Prod.fst).Nodup →
      (flushCats cats buffer m).2 = specCatsUnalloc cats buffer m := by
  intro cats
  induction cats with
  | nil => intro _ _ _; rfl
  | cons cl rest ih =>
    obtain ⟨c, limit⟩ := cl
    intro buffer m hnd
    rw [List.map_cons, List.nodup_cons] at hnd
    obtain ⟨hc, hndrest⟩ := hnd
    simp only [flushCats, specCatsUnalloc]
    rw [List.length_take]
    congr 1
    rw [ih (buffer.filter (fun t => decide (t ∉ (buffer.filter (catIs c)).take
      (min limit (max_messages_per_minute - m)))))
      (m + min (min limit (max_messages_per_minute - m))
        (buffer.filter (catIs c)).length) hndrest]
    apply specCatsUnalloc_congr
    intro p hp
    apply filter_of_disjoint_removed
    intro t _ hq hmem
    have hcat := mem_take_filter_cat hmem
    have hcat2 : t.productCategory = some p.1 := by simpa [catIs] using hq
    rw [hcat] at hcat2
    have : c = p.1 := Option.some.inj hcat2
    exact hc (this ▸ List.mem_map.mpr ⟨p, hp, rfl⟩)

theorem foldl_alloc_append (sim : TradeAllocationSimulation) (rows : List Row) :
    ∀ (ks : List Int) (acc : List Row × List Row),
      ks.foldl (fun acc k =>
        let pb := processBucket sim (bucketRows rows k)
        (acc.1 ++ pb.1, acc.2 ++ pb.2)) acc =
      (acc.1 ++ (ks.map (fun k => (processBucket sim (bucketRows rows k)).1)).flatten,
        acc.2 ++ (ks.map (fun k => (processBucket sim (bucketRows rows k)).2)).flatten) := by
  intro ks
  induction ks with
  | nil => intro acc; simp
  | cons k ks ih =>
    intro acc
    simp only [List.foldl_cons, List.map_cons, List.flatten_cons]
    rw [ih]
    simp [List.append_assoc]

theorem allocationLists_eq (sim : TradeAllocationSimulation) :
    allocationLists sim =
      (((minuteKeys (stampedData sim)).map
          (fun k => (processBucket sim (bucketRows (stampedData sim) k)).1)).flatten,
        ((minuteKeys (stampedData sim)).map
          (fun k => (processBucket sim (bucketRows (stampedData sim) k)).2)).flatten) := by
  have h := foldl_alloc_append sim (stampedData sim)
    (minuteKeys (stampedData sim)) ([], [])
  simpa [allocationLists] using h

theorem orderBuffer_perm (s : String) (b : List Row) :
    (orderBuffer s b).Perm b := by
  unfold orderBuffer
  by_cases h : s = "MaxMW"
  · rw [if_pos h]
    exact sortOrd_perm _ b
  · rw [if_neg h]

theorem mem_allocationLists {sim : TradeAllocationSimulation} {x : Row}
    (hx : x ∈ (allocationLists sim).1 ∨ x ∈ (allocationLists sim).2) :
    ∃ k ∈ minuteKeys (stampedData sim),
      x ∈ orderBuffer sim.strategy (bufferOf sim (bucketRows (stampedData sim) k)) ∧
        ∃ p ∈ trade_limits, x.productCategory = some p.1 := by
  rw [allocationLists_eq] at hx
  rcases hx with hx | hx
  · obtain ⟨l, hl, hxl⟩ := List.mem_flatten.mp hx
    obtain ⟨k, hk, rfl⟩ := List.mem_map.mp hl
    simp only [processBucket] at hxl
    obtain ⟨hb, hcat⟩ := flushCats_mem trade_limits _ 0 x
      (List.mem_append.mpr (Or.inl hxl))
    exact ⟨k, hk, hb, hcat⟩
  · obtain ⟨l, hl, hxl⟩ := List.mem_flatten.mp hx
    obtain ⟨k, hk, rfl⟩ := List.mem_map.mp hl
    simp only [processBucket] at hxl
    obtain ⟨hb, hcat⟩ := flushCats_mem trade_limits _ 0 x
      (List.mem_append.mpr (Or.inr hxl))
    exact ⟨k, hk, hb, hcat⟩

theorem sortOrd_pairwise {α : Type} (le : α → α → Bool)
    (htot : ∀ a b, le a b = true ∨ le b a = true)
    (htrans : ∀ a b c, le a b = true → le b c = true → le a c = true) :
    ∀ l : List α, (sortOrd le l).Pairwise (fun a b => le a b = true) := by
  intro l
  induction l with
  | nil => exact List.Pairwise.nil
  | cons x xs ih => exact insertOrd_pairwise le htot htrans x _ ih

set_option maxRecDepth 10000 in
/-- Claim C1, counterexample: in a bucket of 50 Hourly and 50 QuarterHourly
trades with buffering disabled, the outputs are NOT 50 Hourly + 10
QuarterHourly allocated with exactly 40 QuarterHourly unallocated: the
Hourly quota of 48 caps the Hourly allocation below 50. -/
theorem C1_counterexample :
    (countCat (allocated_trades simC1) ProductCategory.Hourly,
      countCat (allocated_trades simC1) ProductCategory.QuarterHourly,
      countCat (unallocated_trades simC1) ProductCategory.Hourly,
      countCat (unallocated_trades simC1) ProductCategory.QuarterHourly) ≠
    (50, 10, 0, 40) := by decide

set_option maxRecDepth 10000 in
/-- Claim C1, amended: for a single bucket with 50 Hourly and 50
QuarterHourly trades (buffering disabled, global cap 60), the code
allocates 48 Hourly (the Hourly quota) and 12 QuarterHourly trades, and the
unallocated output for the bucket is 2 Hourly and 38 QuarterHourly trades
(60 allocated, 40 unallocated in total). -/
theorem C1_amended_category_priority :
    (countCat (allocated_trades simC1) ProductCategory.Hourly,
      countCat (allocated_trades simC1) ProductCategory.QuarterHourly,
      countCat (unallocated_trades simC1) ProductCategory.Hourly,
      countCat (unallocated_trades simC1) ProductCategory.QuarterHourly,
      (allocated_trades simC1).length, (unallocated_trades simC1).length) =
    (48, 12, 2, 38, 60, 40) := by decide

/-- Claim C2: on an empty input dataset the unallocated output is empty and
`get_summary` raises (the empty record list yields a dataframe without a
`ProductCategory` column, so the groupby raises `KeyError`) instead of
returning an empty mapping. -/
theorem C2_summary_empty_raises :
    simulate_allocation simC2 = [] ∧
    get_summary simC2 = Except.error "KeyError: ProductCategory" :=
  ⟨rfl, rfl⟩

/-- Claim C3, counterexample: the return value of `simulate_allocation`
does not determine the allocated set — two inputs with different allocated
trades produce identical return values, so the caller cannot observe the
allocated collection from the operation's result. -/
theorem C3_counterexample :
    simulate_allocation simC3 = simulate_allocation simC3empty ∧
    allocated_trades simC3 ≠ allocated_trades simC3empty := by decide

/-- Claim C3, amended: `simulate_allocation` returns only the unallocated
trade collection; the allocated list is computed internally and is not part
of the return value (for `simC3` the allocated list is nonempty while the
return value is empty). -/
theorem C3_amended_returns_unallocated_only :
    (∀ sim : TradeAllocationSimulation,
      simulate_allocation sim = unallocated_trades sim) ∧
    allocated_trades simC3 ≠ [] ∧ simulate_allocation simC3 = [] :=
  ⟨fun _ => rfl, by decide, by decide⟩

/-- Claim C4: for every bucket, with buffering disabled and every trade
carrying a recognized category label, the bucket's allocated and
unallocated outputs together are a permutation of the bucket's input
trades — every input trade ends up in exactly one of the two outputs,
counting multiplicity. -/
theorem C4_bucket_partition (sim : TradeAllocationSimulation) (group : List Row)
    (hb : sim.use_buffer = false)
    (hcat : ∀ r ∈ group, r.productCategory ≠ none) :
    ((processBucket sim group).1 ++ (processBucket sim group).2).Perm group := by
  have hbuf : bufferOf sim group = group := by simp [bufferOf, hb]
  have hws : (orderBuffer sim.strategy (bufferOf sim group)).Perm group := by
    rw [hbuf]
    exact orderBuffer_perm _ _
  have hperm := flushCats_perm trade_limits
    (orderBuffer sim.strategy (bufferOf sim group)) 0 (by decide)
  have hfull : (orderBuffer sim.strategy (bufferOf sim group)).filter
      (fun t => trade_limits.any (fun p => catIs p.1 t)) =
      orderBuffer sim.strategy (bufferOf sim group) := by
    rw [List.filter_eq_self]
    intro a ha
    have hcata : a.productCategory ≠ none := hcat a (hws.subset ha)
    cases hh : a.productCategory with
    | none => exact absurd hh hcata
    | some c => cases c <;> simp [trade_limits, catIs, hh]
  simp only [processBucket]
  exact (hfull ▸ hperm).trans hws

/-- Witness for C4 at a concrete three-trade bucket. -/
theorem C4_bucket_partition_witness :
    simC45.use_buffer = false ∧ (∀ r ∈ gC45, r.productCategory ≠ none) ∧
    ((processBucket simC45 gC45).1 ++ (processBucket simC45 gC45).2).Perm gC45 :=
  ⟨by decide, by decide, C4_bucket_partition simC45 gC45 (by decide) (by decide)⟩

/-- Claim C5: per bucket, the allocated count of each category never
exceeds its quota from `trade_limits`, the bucket's total allocated count
never exceeds the global cap of 60, and at the moment a category is
processed its allocated count is at most `min(quota, remaining global
capacity)`. -/
theorem C5_quota_respect (sim : TradeAllocationSimulation) (group : List Row) :
    (∀ c limit, (c, limit) ∈ trade_limits →
      countCat (processBucket sim group).1 c ≤ limit) ∧
    (processBucket sim group).1.length ≤ max_messages_per_minute ∧
    (∀ (c : ProductCategory) (limit : Nat) (rest : List (ProductCategory × Nat))
        (buffer : List Row) (m : Nat), c ∉ rest.map Prod.fst →
      countCat (flushCats ((c, limit) :: rest) buffer m).1 c ≤
        min limit (max_messages_per_minute - m)) := by
  refine ⟨?_, ?_, ?_⟩
  · intro c limit hmem
    simp only [processBucket]
    exact flushCats_countCat_le trade_limits _ 0 (by decide) c limit hmem
  · have h := flushCats_length trade_limits
      (orderBuffer sim.strategy (bufferOf sim group)) 0
    simpa [processBucket] using h
  · exact fun c limit rest buffer m hc =>
      flushCats_head_countCat c limit rest buffer m hc

/-- Witness for C5 at a concrete three-trade bucket. -/
theorem C5_quota_respect_witness :
    (ProductCategory.Hourly, 48) ∈ trade_limits ∧
    countCat (processBucket simC45 gC45).1 ProductCategory.Hourly ≤ 48 ∧
    (processBucket simC45 gC45).1.length ≤ max_messages_per_minute ∧
    ProductCategory.Hourly ∉ ([] : List (ProductCategory × Nat)).map Prod.fst ∧
    countCat (flushCats [(ProductCategory.Hourly, 48)] gC45 0).1
      ProductCategory.Hourly ≤ min 48 (max_messages_per_minute - 0) :=
  ⟨by decide,
    (C5_quota_respect simC45 gC45).1 ProductCategory.Hourly 48 (by decide),
    (C5_quota_respect simC45 gC45).2.1,
    by decide,
    (C5_quota_respect simC45 gC45).2.2 ProductCategory.Hourly 48 [] gC45 0
      (by decide)⟩

/-- Claim C6: with buffering enabled, every row whose urgency exceeds the
threshold appears in neither the allocated nor the unallocated output, and
every data row whose urgency is at most the threshold (inclusive boundary)
enters its bucket's working set for allocation. -/
theorem C6_buffer_filter (sim : TradeAllocationSimulation)
    (hb : sim.use_buffer = true) :
    (∀ x : Row, sim.buffer_threshold < urgency x →
      x ∉ (allocationLists sim).1 ∧ x ∉ (allocationLists sim).2) ∧
    (∀ r ∈ sim.data, urgency r ≤ sim.buffer_threshold →
      stampMinute r ∈ bufferOf sim (bucketRows (stampedData sim)
        (minuteOf r.transactionTime))) := by
  constructor
  · intro x hurg
    have hout : ∀ hx : x ∈ (allocationLists sim).1 ∨ x ∈ (allocationLists sim).2,
        False := by
      intro hx
      obtain ⟨k, _, hxws, _⟩ := mem_allocationLists hx
      have hxbuf : x ∈ bufferOf sim (bucketRows (stampedData sim) k) :=
        (orderBuffer_perm _ _).subset hxws
      have hxbuf2 : x ∈ (bucketRows (stampedData sim) k).filter
          (fun r => decide (urgency r ≤ sim.buffer_threshold)) := by
        simpa [bufferOf, hb] using hxbuf
      have hle : urgency x ≤ sim.buffer_threshold :=
        of_decide_eq_true (List.mem_filter.mp hxbuf2).2
      omega
    exact ⟨fun h => hout (Or.inl h), fun h => hout (Or.inr h)⟩
  · intro r hr hurg
    have h1 : stampMinute r ∈ stampedData sim := List.mem_map.mpr ⟨r, hr, rfl⟩
    have h2 : stampMinute r ∈ bucketRows (stampedData sim)
        (minuteOf r.transactionTime) := by
      apply List.mem_filter.mpr
      exact ⟨h1, by simp [stampMinute]⟩
    have h3 : urgency (stampMinute r) = urgency r := rfl
    simp only [bufferOf, hb, if_true]
    apply List.mem_filter.mpr
    exact ⟨h2, by simp [h3, hurg]⟩

/-- Witness for C6: with threshold 60 minutes, the 61-minute-urgency trade
is in neither output and the 60-minute-urgency trade is in its bucket's
working set. -/
theorem C6_buffer_filter_witness :
    simC6.use_buffer = true ∧
    simC6.buffer_threshold < urgency (stampMinute (loadRow rawC6a)) ∧
    stampMinute (loadRow rawC6a) ∉ (allocationLists simC6).1 ∧
    stampMinute (loadRow rawC6a) ∉ (allocationLists simC6).2 ∧
    loadRow rawC6b ∈ simC6.data ∧
    urgency (loadRow rawC6b) ≤ simC6.buffer_threshold ∧
    stampMinute (loadRow rawC6b) ∈ bufferOf simC6 (bucketRows (stampedData simC6)
      (minuteOf (loadRow rawC6b).transactionTime)) := by
  refine ⟨rfl, by decide, ?_, ?_, by decide, by decide, ?_⟩
  · exact ((C6_buffer_filter simC6 rfl).1 _ (by decide)).1
  · exact ((C6_buffer_filter simC6 rfl).1 _ (by decide)).2
  · exact (C6_buffer_filter simC6 rfl).2 (loadRow rawC6b) (by decide) (by decide)

/-- Claim C7: a trade whose interval length is not 15, 30 or 60 gets an
absent category label from loading, and a row with an absent category label
appears in neither the allocated nor the unallocated output, whatever the
strategy and buffering configuration. -/
theorem C7_unrecognized_excluded :
    (∀ t : RawTrade,
      ¬(t.productTimeDiffMinutes = 15 ∨ t.productTimeDiffMinutes = 30 ∨
        t.productTimeDiffMinutes = 60) →
      (loadRow t).productCategory = none) ∧
    (∀ (sim : TradeAllocationSimulation) (x : Row), x.productCategory = none →
      x ∉ (allocationLists sim).1 ∧ x ∉ (allocationLists sim).2) := by
  constructor
  · intro t ht
    have h15 : t.productTimeDiffMinutes ≠ 15 := fun h => ht (Or.inl h)
    have h30 : t.productTimeDiffMinutes ≠ 30 := fun h => ht (Or.inr (Or.inl h))
    have h60 : t.productTimeDiffMinutes ≠ 60 := fun h => ht (Or.inr (Or.inr h))
    simp [loadRow, categoryOfDiff, h15, h30, h60]
  · intro sim x hx
    have hout : ∀ hmem : x ∈ (allocationLists sim).1 ∨ x ∈ (allocationLists sim).2,
        False := by
      intro hmem
      obtain ⟨k, _, _, p, _, hcat⟩ := mem_allocationLists hmem
      rw [hx] at hcat
      exact Option.noConfusion hcat
    exact ⟨fun h => hout (Or.inl h), fun h => hout (Or.inr h)⟩

/-- Witness for C7 at the interval length 45. -/
theorem C7_unrecognized_excluded_witness :
    ¬(rawC7.productTimeDiffMinutes = 15 ∨ rawC7.productTimeDiffMinutes = 30 ∨
      rawC7.productTimeDiffMinutes = 60) ∧
    (loadRow rawC7).productCategory = none ∧
    stampMinute (loadRow rawC7) ∉ (allocationLists simC7).1 ∧
    stampMinute (loadRow rawC7) ∉ (allocationLists simC7).2 := by
  refine ⟨by decide, ?_, ?_, ?_⟩
  · exact C7_unrecognized_excluded.1 rawC7 (by decide)
  · exact (C7_unrecognized_excluded.2 simC7 _ (by decide)).1
  · exact (C7_unrecognized_excluded.2 simC7 _ (by decide)).2

set_option maxRecDepth 10000 in
/-- Claim C8: under any strategy other than `MaxMW` the working set keeps
its arrival order; under `MaxMW` it is permuted into descending volume
order by a stable sort (equal-volume trades keep their relative order:
every fixed-volume subsequence is unchanged).  Concretely, in `simC8` the
QuarterHourly trades [5, 50, 20] face an effective quota of 2, the trades
of volume 50 and 20 are allocated, and the volume-5 trade is the only
unallocated trade. -/
theorem C8_strategy_ordering :
    (∀ (s : String) (buffer : List Row), s ≠ "MaxMW" →
      orderBuffer s buffer = buffer) ∧
    (∀ buffer : List Row,
      (orderBuffer "MaxMW" buffer).Perm buffer ∧
      (orderBuffer "MaxMW" buffer).Pairwise
        (fun a b => b.quantityMWh ≤ a.quantityMWh) ∧
      ∀ v : Int, (orderBuffer "MaxMW" buffer).filter
          (fun r => decide (r.quantityMWh = v)) =
        buffer.filter (fun r => decide (r.quantityMWh = v))) ∧
    unallocated_trades simC8 = [stampMinute (loadRow rawQ5)] ∧
    (allocated_trades simC8).filter (catIs ProductCategory.QuarterHourly) =
      [stampMinute (loadRow rawQ50), stampMinute (loadRow rawQ20)] := by
  refine ⟨?_, ?_, by decide, by decide⟩
  · intro s buffer hs
    simp [orderBuffer, hs]
  · intro buffer
    have hMW : orderBuffer "MaxMW" buffer =
        sortOrd (fun a b : Row => decide (b.quantityMWh ≤ a.quantityMWh)) buffer := by
      simp [orderBuffer, sortByMW]
    have htot : ∀ a b : Row, (decide (b.quantityMWh ≤ a.quantityMWh)) = true ∨
        (decide (a.quantityMWh ≤ b.quantityMWh)) = true := by
      intro a b
      rcases Int.le_total b.quantityMWh a.quantityMWh with h | h
      · exact Or.inl (decide_eq_true h)
      · exact Or.inr (decide_eq_true h)
    have htrans : ∀ a b c : Row, (decide (b.quantityMWh ≤ a.quantityMWh)) = true →
        (decide (c.quantityMWh ≤ b.quantityMWh)) = true →
        (decide (c.quantityMWh ≤ a.quantityMWh)) = true := by
      intro a b c h1 h2
      exact decide_eq_true (le_trans (of_decide_eq_true h2) (of_decide_eq_true h1))
    refine ⟨?_, ?_, ?_⟩
    · rw [hMW]
      exact sortOrd_perm _ _
    · rw [hMW]
      exact (sortOrd_pairwise _ htot htrans buffer).imp
        (fun h => of_decide_eq_true h)
    · intro v
      rw [hMW]
      apply sortOrd_filter
      intro x y hx hy
      have hx2 : x.quantityMWh = v := of_decide_eq_true hx
      have hy2 : y.quantityMWh = v := of_decide_eq_true hy
      exact decide_eq_true (by rw [hx2, hy2])

/-- Witness for C8: a non-`MaxMW` strategy leaves a concrete list
unchanged, and `MaxMW` permutes it. -/
theorem C8_strategy_ordering_witness :
    ("FirstArrive" : String) ≠ "MaxMW" ∧
    orderBuffer "FirstArrive" gC8w = gC8w ∧
    (orderBuffer "MaxMW" gC8w).Perm gC8w :=
  ⟨by decide, C8_strategy_ordering.1 "FirstArrive" gC8w (by decide),
    (C8_strategy_ordering.2.1 gC8w).1⟩

/-- Claim C9, counterexample: the stored trade data is NOT unchanged by
`simulate_allocation` up to the transient urgency value: the method
persistently adds the `Minute` column to `self.data`. -/
theorem C9_counterexample : dataAfterSimulate simC9 ≠ simC9.data := by decide

/-- Claim C9, amended: after `simulate_allocation` the stored data differs
from the input only in the `Minute` column, which is set to each row's
minute-floored transaction time; every other field of every record is
unchanged (and per-bucket urgency is attached only to transient group
copies, never to the stored data). -/
theorem C9_amended_minute_column (sim : TradeAllocationSimulation) :
    (dataAfterSimulate sim).map stripMinute = sim.data.map stripMinute ∧
    (dataAfterSimulate sim).map Row.minute =
      sim.data.map (fun r => some (minuteOf r.transactionTime)) := by
  constructor
  · show (sim.data.map stampMinute).map stripMinute = sim.data.map stripMinute
    rw [List.map_map]
    have hfun : stripMinute ∘ stampMinute = stripMinute := funext (fun r => rfl)
    rw [hfun]
  · show (sim.data.map stampMinute).map Row.minute =
      sim.data.map (fun r => some (minuteOf r.transactionTime))
    rw [List.map_map]
    have hfun : Row.minute ∘ stampMinute =
        (fun r => some (minuteOf r.transactionTime)) := funext (fun r => rfl)
    rw [hfun]

/-- Claim C10: the unallocated output is fully deterministic: it is the
concatenation, over the bucket keys in strictly ascending minute order, of
each bucket's unallocated trades, and within a bucket these are grouped by
category in the fixed order Hourly, HalfHourly, QuarterHourly, each
category's block being the working set's category subsequence (arrival
order, or stable descending-volume order under `MaxMW`) with its allocated
prefix removed. -/
theorem C10_unallocated_order (sim : TradeAllocationSimulation) :
    simulate_allocation sim =
      ((minuteKeys (stampedData sim)).map (fun k =>
        specCatsUnalloc trade_limits
          (orderBuffer sim.strategy (bufferOf sim (bucketRows (stampedData sim) k)))
          0)).flatten ∧
    (minuteKeys (stampedData sim)).Pairwise (fun a b => a < b) := by
  constructor
  · show (allocationLists sim).2 = _
    rw [allocationLists_eq]
    have hfun : (fun k => (processBucket sim (bucketRows (stampedData sim) k)).2) =
        (fun k => specCatsUnalloc trade_limits
          (orderBuffer sim.strategy (bufferOf sim (bucketRows (stampedData sim) k)))
          0) := by
      funext k
      simp only [processBucket]
      exact flushCats_snd_spec trade_limits _ 0 (by decide)
    rw [hfun]
  · have htot : ∀ a b : Int, (decide (a ≤ b)) = true ∨ (decide (b ≤ a)) = true := by
      intro a b
      rcases Int.le_total a b with h | h
      · exact Or.inl (decide_eq_true h)
      · exact Or.inr (decide_eq_true h)
    have htrans : ∀ a b c : Int, (decide (a ≤ b)) = true →
        (decide (b ≤ c)) = true → (decide (a ≤ c)) = true := by
      intro a b c h1 h2
      exact decide_eq_true (le_trans (of_decide_eq_true h1) (of_decide_eq_true h2))
    have hle := sortOrd_pairwise (fun a b : Int => decide (a ≤ b)) htot htrans
      ((stampedData sim).filterMap (fun r => r.minute)).dedup
    have hnd : (sortOrd (fun a b : Int => decide (a ≤ b))
        ((stampedData sim).filterMap (fun r => r.minute)).dedup).Nodup :=
      (sortOrd_perm _ _).symm.nodup (List.nodup_dedup _)
    have hcomb := List.Pairwise.and hle hnd
    refine hcomb.imp ?_
    intro a b h
    exact lt_of_le_of_ne (of_decide_eq_true h.1) h.2
